import Mathlib

/-!
Verification of the terminal progress-bar renderer and the length-counted
terminal writer (`src/term.rs`).

The embedding models the two components of the source file:

* `MaxLenWriter` with its `write_ascii` and `write_str` operations.  The
  output sink (`StdoutLock`) is modelled as the list of bytes written so far,
  plus a counter of how many `write_all` calls were issued (so that "never
  writes zero-length slices" is observable).
* `progress_bar_with_success`, the bar renderer.  Its output is modelled as a
  list of `OutCmd` items: budget-counted ASCII writes (`write_ascii` on the
  writer), raw byte writes that bypass the budget (`stdout.write_all`), and
  queued zero-width color commands (`stdout.queue(SetForegroundColor ...)`).

All quantities in the source are Rust `u16`.  They are modelled as `Nat` with
explicit wrap-around (`% 65536`) at the multiplication and subtraction sites
where overflow or underflow is possible; `u16` division by zero panics in
Rust, so the renderer returns `Option` and yields `none` exactly when the
normal path would divide by `total = 0`.  Loop iteration counts of Rust
ranges `a..b` are `b - a` truncated at zero, which coincides with `Nat`
subtraction.
-/

/-- One past the largest `u16` value. -/
def U16 : Nat := 65536

/-- Wrapping `u16` addition. -/
def add16 (a b : Nat) : Nat := (a + b) % U16

/-- Wrapping `u16` subtraction (two's complement wrap for operands `< 65536`). -/
def sub16 (a b : Nat) : Nat := (a + U16 - b) % U16

theorem mod16_eq {x : Nat} (h : x < 65536) : x % U16 = x := Nat.mod_eq_of_lt h

theorem add16_eq {a b : Nat} (h : a + b < 65536) : add16 a b = a + b :=
  Nat.mod_eq_of_lt h

theorem sub16_eq {a b : Nat} (hb : b ≤ a) (ha : a < 65536) : sub16 a b = a - b := by
  unfold sub16 U16
  rw [(by omega : a + 65536 - b = a - b + 65536), Nat.add_mod_right]
  exact Nat.mod_eq_of_lt (by omega)

/-- UTF-8 encoding of one scalar value, as the list of its bytes
(model of Rust's `char` encoding; `len_utf8` is its length). -/
def utf8Bytes (c : Char) : List Nat :=
  let n := c.toNat
  if n < 0x80 then [n]
  else if n < 0x800 then [0xC0 ||| (n >>> 6), 0x80 ||| (n &&& 0x3F)]
  else if n < 0x10000 then
    [0xE0 ||| (n >>> 12), 0x80 ||| ((n >>> 6) &&& 0x3F), 0x80 ||| (n &&& 0x3F)]
  else
    [0xF0 ||| (n >>> 18), 0x80 ||| ((n >>> 12) &&& 0x3F),
      0x80 ||| ((n >>> 6) &&& 0x3F), 0x80 ||| (n &&& 0x3F)]

/-- The UTF-8 bytes of a string (Rust `str::as_bytes`); strings are modelled
as their list of scalar values. -/
def strBytes : List Char → List Nat
  | [] => []
  | c :: cs => utf8Bytes c ++ strBytes cs

/-- Byte length of the UTF-8 encoding of a string. -/
def utf8Len (s : List Char) : Nat := (strBytes s).length

/-- Model of Rust's `str::char_indices` starting at byte offset `off`:
the list of (byte offset, scalar value) pairs. -/
def charIndicesFrom (off : Nat) : List Char → List (Nat × Char)
  | [] => []
  | c :: cs => (off, c) :: charIndicesFrom (off + (utf8Bytes c).length) cs

theorem utf8Bytes_length_pos (c : Char) : 0 < (utf8Bytes c).length := by
  unfold utf8Bytes
  simp only []
  split
  · simp
  · split
    · simp
    · split <;> simp

theorem strBytes_append (a b : List Char) :
    strBytes (a ++ b) = strBytes a ++ strBytes b := by
  induction a with
  | nil => simp [strBytes]
  | cons c cs ih => simp [strBytes, ih]

theorem take_length_append (a : List Nat) : ∀ (b : List Nat) (n : Nat),
    (a ++ b).take (a.length + n) = a ++ b.take n := by
  induction a with
  | nil => intro b n; simp
  | cons x xs ih => intro b n; simp [List.take, Nat.succ_add, ih]

/-- Taking, from the byte encoding of `s`, exactly the byte length of the
char prefix `s.take k` yields the encoding of that prefix: the cut is a
character boundary. -/
theorem strBytes_take (s : List Char) : ∀ k : Nat,
    (strBytes s).take (utf8Len (s.take k)) = strBytes (s.take k) := by
  induction s with
  | nil => intro k; simp [strBytes]
  | cons c cs ih =>
    intro k
    cases k with
    | zero => simp [utf8Len, strBytes]
    | succ k =>
      have h : strBytes (c :: cs) = utf8Bytes c ++ strBytes cs := rfl
      have h2 : (c :: cs).take (k + 1) = c :: cs.take k := rfl
      rw [h2]
      have h3 : utf8Len (c :: cs.take k) = (utf8Bytes c).length + utf8Len (cs.take k) := by
        simp [utf8Len, strBytes]
      rw [h, h3, take_length_append, ih k]
      rfl

/-- Analysis of `char_indices().take(r).last()`: for a nonempty string and a
positive budget it returns the byte offset `ind` and scalar `ch` of the last
taken character, and `ind + ch.len_utf8()` is the byte length of the first
`min r (length s)` characters. -/
theorem charIndices_take_getLast :
    ∀ (s : List Char) (r off : Nat), 0 < r → s ≠ [] →
    ∃ ind ch, ((charIndicesFrom off s).take r).getLast? = some (off + ind, ch) ∧
      ind + (utf8Bytes ch).length = utf8Len (s.take (min r s.length)) := by
  intro s
  induction s with
  | nil => intro r off hr hs; exact absurd rfl hs
  | cons c cs ih =>
    intro r off hr _
    cases r with
    | zero => omega
    | succ r' =>
      by_cases hcs : cs = []
      · subst hcs
        refine ⟨0, c, ?_, ?_⟩
        · simp [charIndicesFrom]
        · have : min (r' + 1) ([c].length) = 1 := by simp
          rw [this]
          simp [utf8Len, strBytes]
      · by_cases hr' : r' = 0
        · subst hr'
          refine ⟨0, c, ?_, ?_⟩
          · simp [charIndicesFrom]
          · have : min 1 ((c :: cs).length) = 1 := by simp
            rw [this]
            simp [utf8Len, strBytes]
        · obtain ⟨ind, ch, hlast, hlen⟩ :=
            ih r' (off + (utf8Bytes c).length) (by omega) hcs
          refine ⟨(utf8Bytes c).length + ind, ch, ?_, ?_⟩
          · cases hc2 : cs with
            | nil => exact absurd hc2 hcs
            | cons c2 cs2 =>
              cases r' with
              | zero => omega
              | succ r2 =>
                subst hc2
                have hshape :
                    (charIndicesFrom off (c :: c2 :: cs2)).take (r2 + 1 + 1) =
                      (off, c) :: (charIndicesFrom (off + (utf8Bytes c).length)
                        (c2 :: cs2)).take (r2 + 1) := by
                  simp [charIndicesFrom]
                rw [hshape]
                have htail : (charIndicesFrom (off + (utf8Bytes c).length)
                    (c2 :: cs2)).take (r2 + 1) =
                    (off + (utf8Bytes c).length, c2) ::
                      (charIndicesFrom (off + (utf8Bytes c).length +
                        (utf8Bytes c2).length) cs2).take r2 := by
                  simp [charIndicesFrom]
                rw [htail, List.getLast?_cons_cons, ← htail, hlast]
                rw [Nat.add_assoc]
          · have hmin : min (r' + 1) ((c :: cs).length) = min r' cs.length + 1 := by
              simp [List.length_cons, Nat.succ_min_succ]
            rw [hmin]
            have htake : (c :: cs).take (min r' cs.length + 1) =
                c :: cs.take (min r' cs.length) := rfl
            rw [htake]
            have : utf8Len (c :: cs.take (min r' cs.length)) =
                (utf8Bytes c).length + utf8Len (cs.take (min r' cs.length)) := by
              simp [utf8Len, strBytes]
            rw [this]
            omega

/-- Model of `MaxLenWriter`: the `StdoutLock` sink is the list of bytes
written so far (`out`), plus a count of `write_all` calls issued (`calls`),
so that the absence of zero-length writes is observable.  `len` and
`max_len` are the budget fields of the source struct. -/
structure MaxLenWriter where
  out : List Nat
  len : Nat
  max_len : Nat
  calls : Nat
deriving DecidableEq

/-- Model of `MaxLenWriter::write_ascii`: writes `n = min(input length, saturating
remaining budget)` bytes from the front, only touching the sink when
`n > 0`. -/
def MaxLenWriter.write_ascii (w : MaxLenWriter) (ascii : List Nat) : MaxLenWriter :=
  if 0 < min ascii.length (w.max_len - w.len) then
    { out := w.out ++ ascii.take (min ascii.length (w.max_len - w.len)),
      len := w.len + min ascii.length (w.max_len - w.len),
      max_len := w.max_len, calls := w.calls + 1 }
  else w

/-- Model of `MaxLenWriter::write_str`: takes at most `remaining` characters via
`char_indices().take(..).last()`, writes the byte slice up to and including
the last taken character, and advances `len` by `ind + 1` (the source uses
the byte index `ind` of the last taken character here). -/
def MaxLenWriter.write_str (w : MaxLenWriter) (unicode : List Char) : MaxLenWriter :=
  match ((charIndicesFrom 0 unicode).take (w.max_len - w.len)).getLast? with
  | some (ind, c) =>
      { out := w.out ++ (strBytes unicode).take (ind + (utf8Bytes c).length),
        len := w.len + (ind + 1),
        max_len := w.max_len, calls := w.calls + 1 }
  | none => w

/-- Fuel-driven decimal digit renderer (model of Rust's `{}` formatting of an
unsigned integer).  The fuel argument only forces termination; `decDigits`
supplies enough fuel. -/
def decDigitsCore : Nat → Nat → List Char
  | 0, _ => []
  | fuel + 1, n =>
    if n < 10 then [Nat.digitChar n]
    else decDigitsCore fuel (n / 10) ++ [Nat.digitChar (n % 10)]

/-- Decimal rendering of `n` (Rust `format!("{}", n)`), as a char list. -/
def decDigits (n : Nat) : List Char := decDigitsCore (n + 1) n

theorem decDigitsCore_congr :
    ∀ (f1 f2 n : Nat), n < f1 → n < f2 → decDigitsCore f1 n = decDigitsCore f2 n := by
  intro f1
  induction f1 with
  | zero => intro f2 n h1 _; omega
  | succ f ih =>
    intro f2 n h1 h2
    cases f2 with
    | zero => omega
    | succ f2' =>
      by_cases hn : n < 10
      · simp [decDigitsCore, hn]
      · have hdiv : n / 10 < n := Nat.div_lt_self (by omega) (by omega)
        simp only [decDigitsCore, if_neg hn]
        rw [ih f2' (n / 10) (by omega) (by omega)]

theorem decDigits_lt10 {n : Nat} (h : n < 10) : decDigits n = [Nat.digitChar n] := by
  simp [decDigits, decDigitsCore, h]

theorem decDigits_ge10 {n : Nat} (h : 10 ≤ n) :
    decDigits n = decDigits (n / 10) ++ [Nat.digitChar (n % 10)] := by
  have hdiv : n / 10 < n := Nat.div_lt_self (by omega) (by omega)
  unfold decDigits
  rw [(by rfl : decDigitsCore (n + 1) n =
    if n < 10 then [Nat.digitChar n] else decDigitsCore n (n / 10) ++ [Nat.digitChar (n % 10)])]
  rw [if_neg (by omega)]
  rw [decDigitsCore_congr n (n / 10 + 1) (n / 10) (by omega) (by omega)]

theorem decDigits_length_pos (n : Nat) : 0 < (decDigits n).length := by
  by_cases h : n < 10
  · simp [decDigits_lt10 h]
  · simp [decDigits_ge10 (by omega : 10 ≤ n)]

theorem decDigits_length_le_three {n : Nat} (h : n < 1000) :
    (decDigits n).length ≤ 3 := by
  by_cases h1 : n < 10
  · simp [decDigits_lt10 h1]
  · by_cases h2 : n < 100
    · rw [decDigits_ge10 (by omega)]
      have : n / 10 < 10 := by omega
      simp [decDigits_lt10 this]
    · rw [decDigits_ge10 (by omega)]
      have h3 : 10 ≤ n / 10 := by omega
      rw [decDigits_ge10 h3]
      have : n / 10 / 10 < 10 := by omega
      simp [decDigits_lt10 this]

/-- Right-justification to three columns (Rust's `{:>3}` format). -/
def padLeft3 (s : List Char) : List Char := List.replicate (3 - s.length) ' ' ++ s

theorem padLeft3_length {s : List Char} (h : s.length ≤ 3) :
    (padLeft3 s).length = 3 := by
  simp [padLeft3]
  omega

/-- The four foreground colors the renderer queues:
`PROGRESS_FAILED_COLOR` (red), `PROGRESS_SUCCESS_COLOR` (green),
`PROGRESS_PENDING_COLOR` (blue), and `Color::Reset`. -/
inductive TColor where
  | red
  | green
  | blue
  | reset
deriving DecidableEq

/-- One emitted item of the renderer.  `ascii` is a budget-counted
`writer.write_ascii` call, `raw` a direct `stdout.write_all` (bypasses the
budget), `color` a queued `SetForegroundColor` command (zero display
columns). -/
inductive OutCmd where
  | ascii : List Char → OutCmd
  | raw : List Char → OutCmd
  | color : TColor → OutCmd
deriving DecidableEq

/-- Display columns of one item: escape sequences are zero-width; counted and
raw text is one column per character here (every emitted character is
single-width ASCII). -/
def colWidth : OutCmd → Nat
  | OutCmd.ascii s => s.length
  | OutCmd.raw s => s.length
  | OutCmd.color _ => 0

/-- Total display columns of an emitted item list. -/
def visibleColumns (l : List OutCmd) : Nat := (l.map colWidth).sum

theorem visibleColumns_append (a b : List OutCmd) :
    visibleColumns (a ++ b) = visibleColumns a + visibleColumns b := by
  simp [visibleColumns]

/-- Source constant `PREFIX`, the bytes `b"Progress: ["`. -/
def headChars : List Char := ['P', 'r', 'o', 'g', 'r', 'e', 's', 's', ':', ' ', '[']

/-- The bytes `b"Progress: "` written on the degraded path. -/
def degradedHead : List Char := ['P', 'r', 'o', 'g', 'r', 'e', 's', 's', ':', ' ']

/-- Source constant `PREFIX_WIDTH = PREFIX.len()`. -/
def HEAD_WIDTH : Nat := headChars.length

/-- Source constant `POSTFIX_WIDTH = "] xxx/xxx".len()`. -/
def TAIL_WIDTH : Nat := 9

/-- Source constant `WRAPPER_WIDTH = PREFIX_WIDTH + POSTFIX_WIDTH`. -/
def WRAPPER_WIDTH : Nat := HEAD_WIDTH + TAIL_WIDTH

/-- Source constant `MIN_LINE_WIDTH = WRAPPER_WIDTH + 4`. -/
def MIN_LINE_WIDTH : Nat := WRAPPER_WIDTH + 4

/-- Bar body width `width = line_width - WRAPPER_WIDTH` (u16 subtraction). -/
def barWidth (line_width : Nat) : Nat := sub16 line_width WRAPPER_WIDTH

/-- The u16 product `width * failed` before it is wrapped. -/
def prodFailed (failed line_width : Nat) : Nat := barWidth line_width * failed

/-- The u16 product `width * (failed + success)` before it is wrapped. -/
def prodDone (failed success line_width : Nat) : Nat :=
  barWidth line_width * add16 failed success

/-- The u16 product `width * (failed + success + pending)` before it is
wrapped. -/
def prodAll (pending failed success line_width : Nat) : Nat :=
  barWidth line_width * add16 (add16 failed success) pending

/-- The three cumulative boundary offsets of the bar body. -/
structure Bounds where
  failed_end : Nat
  success_end : Nat
  pending_end : Nat
deriving DecidableEq

/-- The boundaries as first computed by proportional allocation, with the
u16 multiplications wrapping modulo `2^16`. -/
def rawBounds (pending failed success total line_width : Nat) : Bounds :=
  { failed_end := prodFailed failed line_width % U16 / total,
    success_end := prodDone failed success line_width % U16 / total,
    pending_end := prodAll pending failed success line_width % U16 / total }

/-- Value `pending_end.max(1)`: the value of `pending_end` right after the
tie-break forcing in the `pending > 0` branch. -/
def tieBreakPendingEnd (b : Bounds) : Nat := max b.pending_end 1

/-- The boundary adjustment block (`if pending > 0 { ... }`): force
`pending_end` to at least 1, yield one column from `success_end` and
`failed_end` where they collide with it, then reserve the marker column by
decrementing `pending_end` (u16 decrements). -/
def adjBounds (pending : Nat) (b : Bounds) : Bounds :=
  if 0 < pending then
    { failed_end :=
        if tieBreakPendingEnd b = b.failed_end then sub16 b.failed_end 1 else b.failed_end,
      success_end :=
        if tieBreakPendingEnd b = b.success_end then sub16 b.success_end 1 else b.success_end,
      pending_end := sub16 (tieBreakPendingEnd b) 1 }
  else b

/-- The boundaries used for emission: raw proportional allocation followed by
the adjustment block. -/
def bounds (pending failed success total line_width : Nat) : Bounds :=
  adjBounds pending (rawBounds pending failed success total line_width)

/-- Block `if failed > 0 { queue red; emit failed_end '#' }`. -/
def failedSeg (failed : Nat) (b : Bounds) : List OutCmd :=
  if 0 < failed then
    [OutCmd.color TColor.red, OutCmd.raw (List.replicate b.failed_end '#')]
  else []

/-- Block `queue green; emit '#' for failed_end..success_end` (the Rust range is
empty when reversed, matching truncated subtraction). -/
def successSeg (b : Bounds) : List OutCmd :=
  [OutCmd.color TColor.green, OutCmd.raw (List.replicate (b.success_end - b.failed_end) '#')]

/-- Block `if pending > 0 { queue blue; emit '#' for success_end..pending_end }`. -/
def pendingSeg (pending : Nat) (b : Bounds) : List OutCmd :=
  if 0 < pending then
    [OutCmd.color TColor.blue, OutCmd.raw (List.replicate (b.pending_end - b.success_end) '#')]
  else []

/-- Block `if pending_end < width { emit b">" }`. -/
def markerSeg (width : Nat) (b : Bounds) : List OutCmd :=
  if b.pending_end < width then [OutCmd.raw ['>']] else []

/-- Computation `width_minus_filled = width - pending_end` (u16 subtraction); if it
exceeds 1, queue red and emit `width_minus_filled - 1` dashes. -/
def emptySeg (width : Nat) (b : Bounds) : List OutCmd :=
  if 1 < sub16 width b.pending_end then
    [OutCmd.color TColor.red,
      OutCmd.raw (List.replicate (sub16 (sub16 width b.pending_end) 1) '-')]
  else []

/-- The bar body: the five emission blocks of the normal path followed by the
final `SetForegroundColor(Color::Reset)`. -/
def barBody (pending failed success total line_width : Nat) : List OutCmd :=
  failedSeg failed (bounds pending failed success total line_width) ++
  successSeg (bounds pending failed success total line_width) ++
  pendingSeg pending (bounds pending failed success total line_width) ++
  markerSeg (barWidth line_width) (bounds pending failed success total line_width) ++
  emptySeg (barWidth line_width) (bounds pending failed success total line_width) ++
  [OutCmd.color TColor.reset]

/-- Postfix `write!(stdout, "] {:>3}/{}", failed + success, total)` (u16 addition). -/
def tailSeg (failed success total : Nat) : List OutCmd :=
  [OutCmd.raw (']' :: ' ' ::
    (padLeft3 (decDigits (add16 failed success)) ++ '/' :: decDigits total))]

/-- Everything the normal path emits: the raw `PREFIX`, the bar body, and
the counter postfix. -/
def normalLine (pending failed success total line_width : Nat) : List OutCmd :=
  OutCmd.raw headChars ::
    (barBody pending failed success total line_width ++ tailSeg failed success total)

/-- Everything the degraded path emits: two budget-counted ASCII writes,
`"Progress: "` and `"<failed+success>/<total>"`. -/
def degradedLine (failed success total : Nat) : List OutCmd :=
  [OutCmd.ascii degradedHead,
    OutCmd.ascii (decDigits (add16 failed success) ++ '/' :: decDigits total)]

/-- Renderer `progress_bar_with_success`: degraded path below `MIN_LINE_WIDTH`,
otherwise the normal path.  The normal path divides by `total`; `u16`
division by zero panics in Rust, so the model returns `none` there. -/
def progress_bar_with_success
    (pending failed success total line_width : Nat) : Option (List OutCmd) :=
  if line_width < MIN_LINE_WIDTH then some (degradedLine failed success total)
  else if total = 0 then none
  else some (normalLine pending failed success total line_width)

/-- Renderer `progress_bar`: the two-state convenience form. -/
def progress_bar (progress total line_width : Nat) : Option (List OutCmd) :=
  progress_bar_with_success 0 0 progress total line_width

/-- Does an item stem from a budget-counted `write_ascii` call? -/
def isCountedAscii : OutCmd → Bool
  | OutCmd.ascii _ => true
  | OutCmd.raw _ => false
  | OutCmd.color _ => false

/-- Reference variant of `barWidth` with truncated (panic-free) subtraction;
agreement with `barWidth` expresses that the width subtraction cannot
underflow. -/
def barWidthNat (line_width : Nat) : Nat := line_width - WRAPPER_WIDTH

/-- Reference variant of the adjustment block with truncated subtraction in
place of the wrapping u16 decrements; agreement with `adjBounds` expresses
that none of the three decrements underflows. -/
def adjBoundsNat (pending : Nat) (b : Bounds) : Bounds :=
  if 0 < pending then
    { failed_end :=
        if tieBreakPendingEnd b = b.failed_end then b.failed_end - 1 else b.failed_end,
      success_end :=
        if tieBreakPendingEnd b = b.success_end then b.success_end - 1 else b.success_end,
      pending_end := tieBreakPendingEnd b - 1 }
  else b

/-- Reference variant of `bounds` built on `adjBoundsNat`. -/
def boundsNat (pending failed success total line_width : Nat) : Bounds :=
  adjBoundsNat pending (rawBounds pending failed success total line_width)

/-- Reference variant of `emptySeg` with truncated subtraction; agreement
with `emptySeg` expresses that `width - pending_end` cannot underflow. -/
def emptySegNat (width : Nat) (b : Bounds) : List OutCmd :=
  if 1 < width - b.pending_end then
    [OutCmd.color TColor.red,
      OutCmd.raw (List.replicate (width - b.pending_end - 1) '-')]
  else []

/-- Reference variant of the bar body with truncated subtraction. -/
def barBodyNat (pending failed success total line_width : Nat) : List OutCmd :=
  failedSeg failed (boundsNat pending failed success total line_width) ++
  successSeg (boundsNat pending failed success total line_width) ++
  pendingSeg pending (boundsNat pending failed success total line_width) ++
  markerSeg (barWidth line_width) (boundsNat pending failed success total line_width) ++
  emptySegNat (barWidth line_width) (boundsNat pending failed success total line_width) ++
  [OutCmd.color TColor.reset]

/-- Reference variant of the normal path with truncated subtraction
everywhere a u16 decrement occurs. -/
def normalLineNat (pending failed success total line_width : Nat) : List OutCmd :=
  OutCmd.raw headChars ::
    (barBodyNat pending failed success total line_width ++ tailSeg failed success total)

theorem U16_eq : U16 = 65536 := rfl

theorem mod_u16_lt (x : Nat) : x % U16 < 65536 := by
  have h := Nat.mod_lt x (y := U16) (by decide)
  have hU : U16 = 65536 := rfl
  omega

theorem WRAPPER_WIDTH_eq : WRAPPER_WIDTH = 20 := rfl

theorem MIN_LINE_WIDTH_eq : MIN_LINE_WIDTH = 24 := rfl

theorem barWidth_eq {line_width : Nat} (h20 : 20 ≤ line_width)
    (h16 : line_width < 65536) : barWidth line_width = line_width - 20 := by
  unfold barWidth
  rw [WRAPPER_WIDTH_eq]
  exact sub16_eq h20 h16

/-- Even when a u16 product wraps, the raw `pending_end` stays at most
`width`: in the non-wrapping case by `counters ≤ total`, in the wrapping
case because the wrapped numerator is below `2^16 ≤ width * total`. -/
theorem rawPendingEnd_le_width (p f s t lw : Nat) (hsum : p + f + s ≤ t)
    (ht : 0 < t) (ht1000 : t < 1000) :
    (rawBounds p f s t lw).pending_end ≤ barWidth lw := by
  have ha1 : add16 f s = f + s := add16_eq (by omega)
  have ha2 : add16 (f + s) p = f + s + p := add16_eq (by omega)
  have hshape : (rawBounds p f s t lw).pending_end =
      barWidth lw * (f + s + p) % U16 / t := by
    simp [rawBounds, prodAll, ha1, ha2]
  rw [hshape]
  by_cases hx : barWidth lw * (f + s + p) < 65536
  · rw [mod16_eq hx]
    have h1 : barWidth lw * (f + s + p) ≤ barWidth lw * t :=
      Nat.mul_le_mul (Nat.le_refl _) (by omega)
    have h2 : barWidth lw * (f + s + p) / t * t ≤ barWidth lw * (f + s + p) :=
      Nat.div_mul_le_self _ _
    have h3 : barWidth lw * t ≤ barWidth lw * t := Nat.le_refl _
    exact Nat.le_of_mul_le_mul_right (by omega) ht
  · have h1 : barWidth lw * (f + s + p) % U16 < 65536 := mod_u16_lt _
    have h2 : 65536 ≤ barWidth lw * t := by
      have : barWidth lw * (f + s + p) ≤ barWidth lw * t :=
        Nat.mul_le_mul (Nat.le_refl _) (by omega)
      omega
    have h3 : barWidth lw * (f + s + p) % U16 / t * t ≤
        barWidth lw * (f + s + p) % U16 := Nat.div_mul_le_self _ _
    exact Nat.le_of_mul_le_mul_right (by omega) ht

/-- Every raw boundary is below `2^16` (it is a wrapped value divided by a
positive total). -/
theorem rawBounds_lt_u16 (p f s t lw : Nat) :
    (rawBounds p f s t lw).failed_end < 65536 ∧
    (rawBounds p f s t lw).success_end < 65536 ∧
    (rawBounds p f s t lw).pending_end < 65536 := by
  have hm : ∀ x : Nat, x % U16 / t < 65536 := by
    intro x
    have h1 : x % U16 < 65536 := mod_u16_lt _
    have h2 : x % U16 / t ≤ x % U16 := Nat.div_le_self _ _
    omega
  exact ⟨hm _, hm _, hm _⟩

/-- None of the u16 decrements in the adjustment block wraps: the adjusted
bounds agree with the truncated-subtraction reference. -/
theorem adjBounds_eq_adjBoundsNat (pending : Nat) (b : Bounds)
    (hf16 : b.failed_end < 65536) (hs16 : b.success_end < 65536)
    (hp16 : b.pending_end < 65536) :
    adjBounds pending b = adjBoundsNat pending b := by
  unfold adjBounds adjBoundsNat
  by_cases hp : 0 < pending
  · rw [if_pos hp, if_pos hp]
    have htb : 1 ≤ tieBreakPendingEnd b := le_max_right _ _
    have htb16 : tieBreakPendingEnd b < 65536 := by
      unfold tieBreakPendingEnd
      omega
    rw [Bounds.mk.injEq]
    refine ⟨?_, ?_, ?_⟩
    · by_cases hc : tieBreakPendingEnd b = b.failed_end
      · rw [if_pos hc, if_pos hc, sub16_eq (by omega) hf16]
      · rw [if_neg hc, if_neg hc]
    · by_cases hc : tieBreakPendingEnd b = b.success_end
      · rw [if_pos hc, if_pos hc, sub16_eq (by omega) hs16]
      · rw [if_neg hc, if_neg hc]
    · rw [sub16_eq htb htb16]
  · rw [if_neg hp, if_neg hp]

theorem bounds_eq_boundsNat {p f s t : Nat} (lw : Nat) :
    bounds p f s t lw = boundsNat p f s t lw := by
  obtain ⟨hf16, hs16, hp16⟩ := rawBounds_lt_u16 p f s t lw
  exact adjBounds_eq_adjBoundsNat p _ hf16 hs16 hp16

/-- The final `pending_end` used for emission stays at most `width`. -/
theorem boundsPendingEnd_le_width {p f s t lw : Nat} (hsum : p + f + s ≤ t)
    (ht : 0 < t) (ht1000 : t < 1000) (hlw : MIN_LINE_WIDTH ≤ lw)
    (hlw16 : lw < 65536) :
    (bounds p f s t lw).pending_end ≤ barWidth lw := by
  have hraw := rawPendingEnd_le_width p f s t lw hsum ht ht1000
  have hw4 : 4 ≤ barWidth lw := by
    rw [barWidth_eq (by rw [MIN_LINE_WIDTH_eq] at hlw; omega) hlw16]
    rw [MIN_LINE_WIDTH_eq] at hlw
    omega
  rw [bounds_eq_boundsNat lw]
  unfold boundsNat adjBoundsNat
  by_cases hp : 0 < p
  · rw [if_pos hp]
    unfold tieBreakPendingEnd
    simp only []
    omega
  · rw [if_neg hp]
    exact hraw

/-- Subtraction `width - pending_end` does not wrap: `emptySeg` agrees with the
truncated-subtraction reference. -/
theorem emptySeg_eq_emptySegNat {w : Nat} {b : Bounds}
    (hpe : b.pending_end ≤ w) (hw : w < 65536) :
    emptySeg w b = emptySegNat w b := by
  unfold emptySeg emptySegNat
  rw [sub16_eq hpe hw]
  by_cases hc : 1 < w - b.pending_end
  · rw [if_pos hc, if_pos hc, sub16_eq (by omega) (by omega)]
  · rw [if_neg hc, if_neg hc]

/-- Under the preconditions (with `total ≥ 1`) the whole normal path agrees
with its truncated-subtraction reference: no u16 subtraction underflows. -/
theorem normalLine_eq_normalLineNat {p f s t lw : Nat} (hsum : p + f + s ≤ t)
    (ht : 0 < t) (ht1000 : t < 1000) (hlw : MIN_LINE_WIDTH ≤ lw)
    (hlw16 : lw < 65536) :
    normalLine p f s t lw = normalLineNat p f s t lw := by
  have hb := bounds_eq_boundsNat (p := p) (f := f) (s := s) (t := t) lw
  have hpe := boundsPendingEnd_le_width hsum ht ht1000 hlw hlw16
  have hw16 : barWidth lw < 65536 := by
    rw [barWidth_eq (by rw [MIN_LINE_WIDTH_eq] at hlw; omega) hlw16]
    omega
  unfold normalLine normalLineNat barBody barBodyNat
  rw [← hb]
  rw [emptySeg_eq_emptySegNat hpe hw16]

/-- With `line_width ≥ MIN_LINE_WIDTH` and `total ≥ 1` the renderer takes
the normal path and returns it (no division by zero, no panic). -/
theorem progress_bar_normal {p f s t lw : Nat} (ht : 0 < t)
    (hlw : MIN_LINE_WIDTH ≤ lw) :
    progress_bar_with_success p f s t lw = some (normalLine p f s t lw) := by
  unfold progress_bar_with_success
  rw [if_neg (by omega), if_neg (by omega)]

/-- With counters below `total < 1000` and `width * total < 2^16`, none of
the three u16 products wraps: the raw boundaries are plain proportional
allocation. -/
theorem rawBounds_eq_pure {p f s t lw : Nat} (hsum : p + f + s ≤ t)
    (ht1000 : t < 1000) (hov : barWidth lw * t < 65536) :
    rawBounds p f s t lw =
      { failed_end := barWidth lw * f / t,
        success_end := barWidth lw * (f + s) / t,
        pending_end := barWidth lw * (f + s + p) / t } := by
  have ha1 : add16 f s = f + s := add16_eq (by omega)
  have ha2 : add16 (f + s) p = f + s + p := add16_eq (by omega)
  have hmf : barWidth lw * f < 65536 := by
    have : barWidth lw * f ≤ barWidth lw * t := Nat.mul_le_mul (Nat.le_refl _) (by omega)
    omega
  have hms : barWidth lw * (f + s) < 65536 := by
    have : barWidth lw * (f + s) ≤ barWidth lw * t :=
      Nat.mul_le_mul (Nat.le_refl _) (by omega)
    omega
  have hmp : barWidth lw * (f + s + p) < 65536 := by
    have : barWidth lw * (f + s + p) ≤ barWidth lw * t :=
      Nat.mul_le_mul (Nat.le_refl _) (by omega)
    omega
  unfold rawBounds prodFailed prodDone prodAll
  rw [ha1, ha2, mod16_eq hmf, mod16_eq hms, mod16_eq hmp]

theorem cols_failedSeg (f : Nat) (b : Bounds) :
    visibleColumns (failedSeg f b) = if 0 < f then b.failed_end else 0 := by
  unfold failedSeg
  by_cases hf : 0 < f
  · rw [if_pos hf, if_pos hf]
    simp [visibleColumns, colWidth]
  · rw [if_neg hf, if_neg hf]
    simp [visibleColumns]

theorem cols_successSeg (b : Bounds) :
    visibleColumns (successSeg b) = b.success_end - b.failed_end := by
  simp [successSeg, visibleColumns, colWidth]

theorem cols_pendingSeg (p : Nat) (b : Bounds) :
    visibleColumns (pendingSeg p b) =
      if 0 < p then b.pending_end - b.success_end else 0 := by
  unfold pendingSeg
  by_cases hp : 0 < p
  · rw [if_pos hp, if_pos hp]
    simp [visibleColumns, colWidth]
  · rw [if_neg hp, if_neg hp]
    simp [visibleColumns]

theorem cols_markerSeg (w : Nat) (b : Bounds) :
    visibleColumns (markerSeg w b) = if b.pending_end < w then 1 else 0 := by
  unfold markerSeg
  by_cases hm : b.pending_end < w
  · rw [if_pos hm, if_pos hm]
    simp [visibleColumns, colWidth]
  · rw [if_neg hm, if_neg hm]
    simp [visibleColumns]

theorem cols_emptySegNat (w : Nat) (b : Bounds) :
    visibleColumns (emptySegNat w b) =
      if 1 < w - b.pending_end then w - b.pending_end - 1 else 0 := by
  unfold emptySegNat
  by_cases he : 1 < w - b.pending_end
  · rw [if_pos he, if_pos he]
    simp [visibleColumns, colWidth]
  · rw [if_neg he, if_neg he]
    simp [visibleColumns]

/-- Ordering facts for the adjusted boundaries in the non-wrapping case:
`failed_end ≤ success_end ≤ pending_end ≤ width`, `failed = 0` forces a zero
failed segment and `pending = 0` leaves `success_end = pending_end`. -/
theorem boundsNat_facts {p f s t lw : Nat} (hsum : p + f + s ≤ t) (ht : 0 < t)
    (ht1000 : t < 1000) (hlw : MIN_LINE_WIDTH ≤ lw) (hlw16 : lw < 65536)
    (hov : barWidth lw * t < 65536) :
    (boundsNat p f s t lw).failed_end ≤ (boundsNat p f s t lw).success_end ∧
    (boundsNat p f s t lw).success_end ≤ (boundsNat p f s t lw).pending_end ∧
    (boundsNat p f s t lw).pending_end ≤ barWidth lw ∧
    (f = 0 → (boundsNat p f s t lw).failed_end = 0) ∧
    (p = 0 → (boundsNat p f s t lw).success_end = (boundsNat p f s t lw).pending_end) := by
  have hw4 : 4 ≤ barWidth lw := by
    rw [barWidth_eq (by rw [MIN_LINE_WIDTH_eq] at hlw; omega) hlw16]
    rw [MIN_LINE_WIDTH_eq] at hlw
    omega
  have hFeE : barWidth lw * f / t ≤ barWidth lw * (f + s) / t :=
    Nat.div_le_div_right (Nat.mul_le_mul (Nat.le_refl _) (by omega))
  have hEP : barWidth lw * (f + s) / t ≤ barWidth lw * (f + s + p) / t :=
    Nat.div_le_div_right (Nat.mul_le_mul (Nat.le_refl _) (by omega))
  have hPw : barWidth lw * (f + s + p) / t ≤ barWidth lw := by
    have h1 : barWidth lw * (f + s + p) ≤ barWidth lw * t :=
      Nat.mul_le_mul (Nat.le_refl _) (by omega)
    have h2 : barWidth lw * (f + s + p) / t * t ≤ barWidth lw * (f + s + p) :=
      Nat.div_mul_le_self _ _
    exact Nat.le_of_mul_le_mul_right (by omega) ht
  have hf0 : f = 0 → barWidth lw * f / t = 0 := by
    intro h
    subst h
    simp
  unfold boundsNat
  rw [rawBounds_eq_pure hsum ht1000 hov]
  unfold adjBoundsNat tieBreakPendingEnd
  by_cases hp : 0 < p
  · rw [if_pos hp]
    simp only []
    refine ⟨?_, ?_, ?_, ?_, ?_⟩
    · split_ifs <;> omega
    · split_ifs <;> omega
    · omega
    · intro h
      have := hf0 h
      split_ifs <;> omega
    · intro h
      omega
  · rw [if_neg hp]
    simp only []
    have hp0 : p = 0 := by omega
    subst hp0
    refine ⟨hFeE, hEP, ?_, ?_, ?_⟩
    · simpa using hPw
    · intro h
      exact hf0 h
    · intro h
      simp

/-- The five emitted fill blocks of the bar body partition exactly the
`width` columns (non-wrapping preconditions). -/
theorem fill_sum {p f s t lw : Nat} (hsum : p + f + s ≤ t) (ht : 0 < t)
    (ht1000 : t < 1000) (hlw : MIN_LINE_WIDTH ≤ lw) (hlw16 : lw < 65536)
    (hov : barWidth lw * t < 65536) :
    visibleColumns (failedSeg f (bounds p f s t lw)) +
    visibleColumns (successSeg (bounds p f s t lw)) +
    visibleColumns (pendingSeg p (bounds p f s t lw)) +
    visibleColumns (markerSeg (barWidth lw) (bounds p f s t lw)) +
    visibleColumns (emptySeg (barWidth lw) (bounds p f s t lw)) = barWidth lw := by
  obtain ⟨h1, h2, h3, h4, h5⟩ := boundsNat_facts hsum ht ht1000 hlw hlw16 hov
  have hw16 : barWidth lw < 65536 := by
    rw [barWidth_eq (by rw [MIN_LINE_WIDTH_eq] at hlw; omega) hlw16]
    omega
  rw [bounds_eq_boundsNat lw]
  rw [emptySeg_eq_emptySegNat h3 hw16]
  rw [cols_failedSeg, cols_successSeg, cols_pendingSeg, cols_markerSeg, cols_emptySegNat]
  rcases Nat.eq_zero_or_pos f with hf | hf
  · have hfe := h4 hf
    rcases Nat.eq_zero_or_pos p with hp | hp
    · have hse := h5 hp
      rw [if_neg (by omega), if_neg (by omega)]
      split_ifs <;> omega
    · rw [if_neg (by omega), if_pos hp]
      split_ifs <;> omega
  · rcases Nat.eq_zero_or_pos p with hp | hp
    · have hse := h5 hp
      rw [if_pos hf, if_neg (by omega)]
      split_ifs <;> omega
    · rw [if_pos hf, if_pos hp]
      split_ifs <;> omega

/-- Columns of the counter postfix: `"] "` plus the 3-wide counter, the
slash and the digits of `total`. -/
theorem cols_tailSeg {f s t : Nat} (hfs : f + s < 1000) :
    visibleColumns (tailSeg f s t) = 6 + (decDigits t).length := by
  unfold tailSeg
  have ha : add16 f s = f + s := add16_eq (by omega)
  rw [ha]
  have hpad : (padLeft3 (decDigits (f + s))).length = 3 :=
    padLeft3_length (decDigits_length_le_three hfs)
  simp [visibleColumns, colWidth, hpad]
  omega

/-- Columns of one leading item. -/
theorem visibleColumns_cons (x : OutCmd) (l : List OutCmd) :
    visibleColumns (x :: l) = colWidth x + visibleColumns l := by
  simp [visibleColumns]

theorem cols_barBody {p f s t lw : Nat} (hsum : p + f + s ≤ t) (ht : 0 < t)
    (ht1000 : t < 1000) (hlw : MIN_LINE_WIDTH ≤ lw) (hlw16 : lw < 65536)
    (hov : barWidth lw * t < 65536) :
    visibleColumns (barBody p f s t lw) = barWidth lw := by
  have hsum5 := fill_sum hsum ht ht1000 hlw hlw16 hov
  unfold barBody
  rw [visibleColumns_append, visibleColumns_append, visibleColumns_append,
    visibleColumns_append, visibleColumns_append]
  have hreset : visibleColumns [OutCmd.color TColor.reset] = 0 := rfl
  omega

/-- Total display columns of the whole normal line. -/
theorem cols_normalLine {p f s t lw : Nat} (hsum : p + f + s ≤ t) (ht : 0 < t)
    (ht1000 : t < 1000) (hlw : MIN_LINE_WIDTH ≤ lw) (hlw16 : lw < 65536)
    (hov : barWidth lw * t < 65536) :
    visibleColumns (normalLine p f s t lw) = lw - 3 + (decDigits t).length := by
  have hbody := cols_barBody hsum ht ht1000 hlw hlw16 hov
  have hwidth : barWidth lw = lw - 20 :=
    barWidth_eq (by rw [MIN_LINE_WIDTH_eq] at hlw; omega) hlw16
  have htail : visibleColumns (tailSeg f s t) = 6 + (decDigits t).length :=
    cols_tailSeg (by omega)
  have hhead : colWidth (OutCmd.raw headChars) = 11 := rfl
  unfold normalLine
  rw [visibleColumns_cons, visibleColumns_append, hbody, htail, hhead, hwidth]
  rw [MIN_LINE_WIDTH_eq] at hlw
  omega

theorem replicate_ne_marker {n : Nat} {c : Char} (hc : c ≠ '>') :
    List.replicate n c ≠ ['>'] := by
  intro h
  have hlen : n = 1 := by
    have := congrArg List.length h
    simpa using this
  subst hlen
  simp [List.replicate] at h
  exact hc h

theorem mem_ite_nil {x : OutCmd} {c : Prop} [Decidable c] {l : List OutCmd}
    (h : x ∈ (if c then l else [])) : c ∧ x ∈ l := by
  by_cases hc : c
  · rw [if_pos hc] at h
    exact ⟨hc, h⟩
  · rw [if_neg hc] at h
    simp at h

theorem marker_not_mem_failedSeg (f : Nat) (b : Bounds) :
    OutCmd.raw ['>'] ∉ failedSeg f b := by
  unfold failedSeg
  intro h
  obtain ⟨_, h⟩ := mem_ite_nil h
  rcases List.mem_cons.mp h with h | h
  · exact absurd h (by decide)
  · rcases List.mem_cons.mp h with h | h
    · rw [OutCmd.raw.injEq] at h
      exact replicate_ne_marker (by decide) h.symm
    · simp at h

theorem marker_not_mem_successSeg (b : Bounds) :
    OutCmd.raw ['>'] ∉ successSeg b := by
  unfold successSeg
  intro h
  rcases List.mem_cons.mp h with h | h
  · exact absurd h (by decide)
  · rcases List.mem_cons.mp h with h | h
    · rw [OutCmd.raw.injEq] at h
      exact replicate_ne_marker (by decide) h.symm
    · simp at h

theorem marker_not_mem_pendingSeg (p : Nat) (b : Bounds) :
    OutCmd.raw ['>'] ∉ pendingSeg p b := by
  unfold pendingSeg
  intro h
  obtain ⟨_, h⟩ := mem_ite_nil h
  rcases List.mem_cons.mp h with h | h
  · exact absurd h (by decide)
  · rcases List.mem_cons.mp h with h | h
    · rw [OutCmd.raw.injEq] at h
      exact replicate_ne_marker (by decide) h.symm
    · simp at h

theorem marker_not_mem_emptySeg (w : Nat) (b : Bounds) :
    OutCmd.raw ['>'] ∉ emptySeg w b := by
  unfold emptySeg
  intro h
  obtain ⟨_, h⟩ := mem_ite_nil h
  rcases List.mem_cons.mp h with h | h
  · exact absurd h (by decide)
  · rcases List.mem_cons.mp h with h | h
    · rw [OutCmd.raw.injEq] at h
      exact replicate_ne_marker (by decide) h.symm
    · simp at h

theorem marker_not_mem_tailSeg (f s t : Nat) :
    OutCmd.raw ['>'] ∉ tailSeg f s t := by
  unfold tailSeg
  intro h
  rcases List.mem_cons.mp h with h | h
  · rw [OutCmd.raw.injEq] at h
    have hlen := congrArg List.length h
    simp at hlen
  · simp at h

/-- The arrow marker appears in the emitted line exactly when
`pending_end < width` after all adjustments; no other emitted item can be the
one-byte write `b">"`. -/
theorem marker_mem_normalLine (p f s t lw : Nat) :
    OutCmd.raw ['>'] ∈ normalLine p f s t lw ↔
      (bounds p f s t lw).pending_end < barWidth lw := by
  constructor
  · intro h
    by_contra hm
    unfold normalLine at h
    rcases List.mem_cons.mp h with h | h
    · exact absurd h (by decide)
    rcases List.mem_append.mp h with h | h
    · unfold barBody at h
      rcases List.mem_append.mp h with h | h
      · rcases List.mem_append.mp h with h | h
        · rcases List.mem_append.mp h with h | h
          · rcases List.mem_append.mp h with h | h
            · rcases List.mem_append.mp h with h | h
              · exact marker_not_mem_failedSeg _ _ h
              · exact marker_not_mem_successSeg _ h
            · exact marker_not_mem_pendingSeg _ _ h
          · obtain ⟨hc, _⟩ := mem_ite_nil (by unfold markerSeg at h; exact h)
            exact hm hc
        · exact marker_not_mem_emptySeg _ _ h
      · rcases List.mem_cons.mp h with h | h
        · exact absurd h (by decide)
        · simp at h
    · exact marker_not_mem_tailSeg _ _ _ h
  · intro hm
    unfold normalLine barBody markerSeg
    rw [if_pos hm]
    simp [List.mem_append]

/-- C2: for every input string and budget state, `write_str` emits exactly
the UTF-8 bytes of the largest prefix of the input measured in Unicode
scalar values that fits in `remaining = max_length - current_length` slots
(so the emitted bytes are a complete encoding ending at a character
boundary), and with `remaining = 0` nothing is written. -/
theorem C2_write_str_prefix_safety (w : MaxLenWriter) (s : List Char) :
    (w.write_str s).out =
      w.out ++ strBytes (s.take (min (w.max_len - w.len) s.length)) ∧
    (w.max_len - w.len = 0 → w.write_str s = w) := by
  constructor
  · unfold MaxLenWriter.write_str
    by_cases hr : w.max_len - w.len = 0
    · rw [hr]
      simp [strBytes]
    · by_cases hs : s = []
      · subst hs
        simp [charIndicesFrom, strBytes]
      · obtain ⟨ind, ch, hlast, hlen⟩ :=
          charIndices_take_getLast s (w.max_len - w.len) 0 (by omega) hs
        rw [Nat.zero_add] at hlast
        rw [hlast]
        simp only []
        rw [hlen, strBytes_take]
  · intro h0
    unfold MaxLenWriter.write_str
    rw [h0]
    simp

theorem C2_write_str_prefix_safety_witness :
    ((⟨[], 2, 5, 0⟩ : MaxLenWriter).write_str ['a', 'b']).out =
      [] ++ strBytes (['a', 'b'].take (min (5 - 2) ['a', 'b'].length)) ∧
    (5 - 2 = 0 → (⟨[], 2, 5, 0⟩ : MaxLenWriter).write_str ['a', 'b'] =
      (⟨[], 2, 5, 0⟩ : MaxLenWriter)) :=
  C2_write_str_prefix_safety ⟨[], 2, 5, 0⟩ ['a', 'b']

/-- C3: at the two-character input "éa" (a two-byte scalar followed by an
ASCII one) with ample budget, `write_str` writes both characters but
advances `len` by `ind + 1 = 3` — the byte index of the last character plus
one — not by the number of characters written, which is 2. -/
theorem C3_write_str_len_overcount :
    ((⟨[], 0, 10, 0⟩ : MaxLenWriter).write_str [Char.ofNat 233, 'a']).len = 3 ∧
    ([Char.ofNat 233, 'a'].take
      (min (10 - 0) [Char.ofNat 233, 'a'].length)).length = 2 ∧
    (3 : Nat) ≠ 2 := by decide

/-- C8: `write_ascii` appends exactly `min(input length, max_length -
current_length)` bytes from the front of the input, advances
`current_length` by that count, keeps the budget, issues no sink write when
the count is zero, and issues exactly one otherwise. -/
theorem C8_write_ascii_budget (w : MaxLenWriter) (a : List Nat) :
    (w.write_ascii a).out = w.out ++ a.take (min a.length (w.max_len - w.len)) ∧
    (w.write_ascii a).len = w.len + min a.length (w.max_len - w.len) ∧
    (w.write_ascii a).max_len = w.max_len ∧
    (min a.length (w.max_len - w.len) = 0 → w.write_ascii a = w) ∧
    (0 < min a.length (w.max_len - w.len) →
      (w.write_ascii a).calls = w.calls + 1) := by
  unfold MaxLenWriter.write_ascii
  by_cases h : 0 < min a.length (w.max_len - w.len)
  · rw [if_pos h]
    refine ⟨rfl, rfl, rfl, ?_, fun _ => rfl⟩
    intro h0
    omega
  · rw [if_neg h]
    have h0 : min a.length (w.max_len - w.len) = 0 := by omega
    rw [h0]
    refine ⟨by simp, by omega, rfl, fun _ => rfl, ?_⟩
    intro hc
    omega

theorem C8_write_ascii_budget_witness :
    ((⟨[9], 1, 4, 0⟩ : MaxLenWriter).write_ascii [5, 6, 7, 8, 9]).out =
      [9] ++ [5, 6, 7, 8, 9].take (min [5, 6, 7, 8, 9].length (4 - 1)) ∧
    ((⟨[9], 1, 4, 0⟩ : MaxLenWriter).write_ascii [5, 6, 7, 8, 9]).len =
      1 + min [5, 6, 7, 8, 9].length (4 - 1) ∧
    ((⟨[9], 1, 4, 0⟩ : MaxLenWriter).write_ascii [5, 6, 7, 8, 9]).max_len = 4 ∧
    (min [5, 6, 7, 8, 9].length (4 - 1) = 0 →
      (⟨[9], 1, 4, 0⟩ : MaxLenWriter).write_ascii [5, 6, 7, 8, 9] =
        (⟨[9], 1, 4, 0⟩ : MaxLenWriter)) ∧
    (0 < min [5, 6, 7, 8, 9].length (4 - 1) →
      ((⟨[9], 1, 4, 0⟩ : MaxLenWriter).write_ascii [5, 6, 7, 8, 9]).calls = 0 + 1) :=
  C8_write_ascii_budget ⟨[9], 1, 4, 0⟩ [5, 6, 7, 8, 9]

/-- C7: below the minimum line width the renderer takes the degraded path:
exactly two budget-counted ASCII writes, `"Progress: "` and
`"<failed+success>/<total>"`, with no bar, no color command and no raw
escape bytes. -/
theorem C7_degraded_text (p f s t lw : Nat) (hlw : lw < MIN_LINE_WIDTH)
    (hsum : p + f + s ≤ t) (ht1000 : t < 1000) :
    progress_bar_with_success p f s t lw =
      some [OutCmd.ascii degradedHead,
        OutCmd.ascii (decDigits (f + s) ++ '/' :: decDigits t)] ∧
    (degradedLine f s t).all isCountedAscii = true := by
  have ha : add16 f s = f + s := add16_eq (by omega)
  constructor
  · unfold progress_bar_with_success
    rw [if_pos hlw]
    unfold degradedLine
    rw [ha]
  · unfold degradedLine
    simp [isCountedAscii]

theorem C7_degraded_text_witness :
    progress_bar_with_success 0 0 3 7 10 =
      some [OutCmd.ascii degradedHead,
        OutCmd.ascii (decDigits (0 + 3) ++ '/' :: decDigits 7)] ∧
    (degradedLine 0 3 7).all isCountedAscii = true :=
  C7_degraded_text 0 0 3 7 10 (by decide) (by decide) (by decide)

/-- C4: when `pending > 0` and proportional allocation left all three raw
boundaries at 0, the tie-break step forces `pending_end` to at least 1, the
normal path is taken, and the marker column is emitted, so the
marker-bearing pending segment keeps at least one column. -/
theorem C4_pending_tiebreak_min_one (p f s t lw : Nat) (hp : 0 < p)
    (hsum : p + f + s ≤ t) (ht1000 : t < 1000) (hlw : MIN_LINE_WIDTH ≤ lw)
    (hlw16 : lw < 65536)
    (hfe : (rawBounds p f s t lw).failed_end = 0)
    (hse : (rawBounds p f s t lw).success_end = 0)
    (hpe : (rawBounds p f s t lw).pending_end = 0) :
    1 ≤ tieBreakPendingEnd (rawBounds p f s t lw) ∧
    OutCmd.raw ['>'] ∈ normalLine p f s t lw ∧
    progress_bar_with_success p f s t lw = some (normalLine p f s t lw) := by
  have ht : 0 < t := by omega
  have hw4 : 4 ≤ barWidth lw := by
    rw [barWidth_eq (by rw [MIN_LINE_WIDTH_eq] at hlw; omega) hlw16]
    rw [MIN_LINE_WIDTH_eq] at hlw
    omega
  have hfinal : (bounds p f s t lw).pending_end = 0 := by
    rw [bounds_eq_boundsNat lw]
    unfold boundsNat adjBoundsNat
    rw [if_pos hp]
    simp only []
    unfold tieBreakPendingEnd
    rw [hpe]
    decide
  refine ⟨le_max_right _ _, ?_, progress_bar_normal ht hlw⟩
  rw [marker_mem_normalLine]
  omega

theorem C4_pending_tiebreak_min_one_witness :
    1 ≤ tieBreakPendingEnd (rawBounds 1 0 0 10 24) ∧
    OutCmd.raw ['>'] ∈ normalLine 1 0 0 10 24 ∧
    progress_bar_with_success 1 0 0 10 24 = some (normalLine 1 0 0 10 24) :=
  C4_pending_tiebreak_min_one 1 0 0 10 24 (by decide) (by decide) (by decide)
    (by decide) (by decide) (by decide) (by decide) (by decide)

/-- C5: the marker is emitted exactly when `pending_end < width` after all
adjustments, independently of whether `pending > 0`; in particular at
`(pending = 0, failed = 0, success = 10, total = 10, line_width = 40)` the
bar body is all success fill, no marker is emitted and the counter reads
`" 10/10"`. -/
theorem C5_marker_iff_pending_lt_width (p f s t lw : Nat) :
    (OutCmd.raw ['>'] ∈ normalLine p f s t lw ↔
      (bounds p f s t lw).pending_end < barWidth lw) ∧
    progress_bar_with_success 0 0 10 10 40 =
      some [OutCmd.raw headChars, OutCmd.color TColor.green,
        OutCmd.raw (List.replicate 20 '#'), OutCmd.color TColor.reset,
        OutCmd.raw [']', ' ', ' ', '1', '0', '/', '1', '0']] :=
  ⟨marker_mem_normalLine p f s t lw, by decide⟩

/-- C9 (amended: `total ≥ 1` added to the preconditions): the normal path
divides only by a positive `total` and returns normally, and none of its u16
subtractions underflows — the width subtraction, the three decrements of the
adjustment block and the `width - pending_end` computation all agree with
truncated (panic-free) subtraction. -/
theorem C9_no_underflow_amended (p f s t lw : Nat) (hsum : p + f + s ≤ t)
    (ht : 0 < t) (ht1000 : t < 1000) (hlw : MIN_LINE_WIDTH ≤ lw)
    (hlw16 : lw < 65536) :
    progress_bar_with_success p f s t lw = some (normalLine p f s t lw) ∧
    barWidth lw = lw - WRAPPER_WIDTH ∧
    bounds p f s t lw = boundsNat p f s t lw ∧
    normalLine p f s t lw = normalLineNat p f s t lw := by
  refine ⟨progress_bar_normal ht hlw, ?_, bounds_eq_boundsNat lw,
    normalLine_eq_normalLineNat hsum ht ht1000 hlw hlw16⟩
  rw [WRAPPER_WIDTH_eq]
  exact barWidth_eq (by rw [MIN_LINE_WIDTH_eq] at hlw; omega) hlw16

theorem C9_no_underflow_amended_witness :
    progress_bar_with_success 1 1 1 10 30 = some (normalLine 1 1 1 10 30) ∧
    barWidth 30 = 30 - WRAPPER_WIDTH ∧
    bounds 1 1 1 10 30 = boundsNat 1 1 1 10 30 ∧
    normalLine 1 1 1 10 30 = normalLineNat 1 1 1 10 30 :=
  C9_no_underflow_amended 1 1 1 10 30 (by decide) (by decide) (by decide)
    (by decide) (by decide)

/-- C9 counterexample: the input `(0, 0, 0, total = 0, line_width = 24)`
satisfies every precondition the claim states, yet the normal path is
reached and divides by `total = 0` (a Rust panic, `none` in the model). -/
theorem C9_total_zero_counterexample :
    (0 + 0 + 0 ≤ 0 ∧ (0 : Nat) < 1000 ∧ MIN_LINE_WIDTH ≤ 24) ∧
    progress_bar_with_success 0 0 0 0 24 = none := by decide

/-- C10 (amended: the claim holds under the additional bound
`width * total < 2^16`): each of the three u16 products is below `2^16`, so
none of the boundary multiplications wraps. -/
theorem C10_products_bounded_amended (p f s t lw : Nat) (hsum : p + f + s ≤ t)
    (ht1000 : t < 1000) (hov : barWidth lw * t < 65536) :
    prodFailed f lw < 65536 ∧ prodDone f s lw < 65536 ∧
    prodAll p f s lw < 65536 := by
  have ha1 : add16 f s = f + s := add16_eq (by omega)
  have ha2 : add16 (f + s) p = f + s + p := add16_eq (by omega)
  unfold prodFailed prodDone prodAll
  rw [ha1, ha2]
  refine ⟨?_, ?_, ?_⟩
  · have h : barWidth lw * f ≤ barWidth lw * t :=
      Nat.mul_le_mul (Nat.le_refl _) (by omega)
    omega
  · have h : barWidth lw * (f + s) ≤ barWidth lw * t :=
      Nat.mul_le_mul (Nat.le_refl _) (by omega)
    omega
  · have h : barWidth lw * (f + s + p) ≤ barWidth lw * t :=
      Nat.mul_le_mul (Nat.le_refl _) (by omega)
    omega

theorem C10_products_bounded_amended_witness :
    prodFailed 2 40 < 65536 ∧ prodDone 2 3 40 < 65536 ∧
    prodAll 1 2 3 40 < 65536 :=
  C10_products_bounded_amended 1 2 3 10 40 (by decide) (by decide) (by decide)

/-- C10 counterexample: at `failed = 999, success = pending = 0,
total = 999, line_width = 90` (all preconditions of the claim hold, width is
70) the first product is `70 * 999 = 69930 ≥ 2^16`: the u16 multiplication
overflows. -/
theorem C10_overflow_counterexample :
    (0 + 999 + 0 ≤ 999 ∧ (999 : Nat) < 1000 ∧ MIN_LINE_WIDTH ≤ 90) ∧
    65536 ≤ prodFailed 999 90 := by decide

/-- C6 counterexample: with `total = 328`, `failed = 100`, `pending = 0` and
`line_width = 220` (width 200, all stated preconditions hold), raising
`success` from 100 to 228 makes the u16 product `width * (failed + success)`
wrap past `2^16`, and the adjusted `success_end` drops from 121 to 0: the
claimed monotonicity fails on the code. -/
theorem C6_monotonicity_counterexample :
    (0 + 100 + 228 ≤ 328 ∧ (328 : Nat) < 1000 ∧ MIN_LINE_WIDTH ≤ 220) ∧
    (bounds 0 100 228 328 220).success_end <
      (bounds 0 100 100 328 220).success_end := by decide

/-- C6 (amended: under the additional no-overflow bound
`width * total < 2^16`): increasing `success` with everything else fixed
never decreases the adjusted `success_end` and never decreases the visible
success segment length `success_end - failed_end`. -/
theorem C6_success_monotone_amended (p f s s' t lw : Nat) (hss : s < s')
    (hsum : p + f + s' ≤ t) (ht1000 : t < 1000) (hlw : MIN_LINE_WIDTH ≤ lw)
    (hlw16 : lw < 65536) (hov : barWidth lw * t < 65536) :
    (bounds p f s t lw).success_end ≤ (bounds p f s' t lw).success_end ∧
    (bounds p f s t lw).success_end - (bounds p f s t lw).failed_end ≤
      (bounds p f s' t lw).success_end - (bounds p f s' t lw).failed_end := by
  have hsum1 : p + f + s ≤ t := by omega
  have hE : barWidth lw * (f + s) / t ≤ barWidth lw * (f + s') / t :=
    Nat.div_le_div_right (Nat.mul_le_mul (Nat.le_refl _) (by omega))
  have hP : barWidth lw * (f + s + p) / t ≤ barWidth lw * (f + s' + p) / t :=
    Nat.div_le_div_right (Nat.mul_le_mul (Nat.le_refl _) (by omega))
  have hFeE : barWidth lw * f / t ≤ barWidth lw * (f + s) / t :=
    Nat.div_le_div_right (Nat.mul_le_mul (Nat.le_refl _) (by omega))
  have hFeE' : barWidth lw * f / t ≤ barWidth lw * (f + s') / t :=
    Nat.div_le_div_right (Nat.mul_le_mul (Nat.le_refl _) (by omega))
  have hEP : barWidth lw * (f + s) / t ≤ barWidth lw * (f + s + p) / t :=
    Nat.div_le_div_right (Nat.mul_le_mul (Nat.le_refl _) (by omega))
  have hEP' : barWidth lw * (f + s') / t ≤ barWidth lw * (f + s' + p) / t :=
    Nat.div_le_div_right (Nat.mul_le_mul (Nat.le_refl _) (by omega))
  rw [bounds_eq_boundsNat lw, bounds_eq_boundsNat lw]
  unfold boundsNat
  rw [rawBounds_eq_pure hsum1 ht1000 hov, rawBounds_eq_pure hsum ht1000 hov]
  unfold adjBoundsNat tieBreakPendingEnd
  by_cases hp : 0 < p
  · rw [if_pos hp, if_pos hp]
    simp only []
    constructor
    · split_ifs <;> omega
    · split_ifs <;> omega
  · rw [if_neg hp, if_neg hp]
    simp only []
    omega

theorem C6_success_monotone_amended_witness :
    (bounds 2 1 3 20 40).success_end ≤ (bounds 2 1 5 20 40).success_end ∧
    (bounds 2 1 3 20 40).success_end - (bounds 2 1 3 20 40).failed_end ≤
      (bounds 2 1 5 20 40).success_end - (bounds 2 1 5 20 40).failed_end :=
  C6_success_monotone_amended 2 1 3 5 20 40 (by decide) (by decide) (by decide)
    (by decide) (by decide) (by decide)

/-- C1 counterexample: at `(pending = 0, failed = 0, success = 10,
total = 10, line_width = 40)` the renderer takes the normal path but the
whole line is 39 display columns, not `line_width = 40`: the `"] xxx/xxx"`
postfix budget assumes a three-digit total, while `total = 10` prints with
two digits. -/
theorem C1_total_columns_counterexample :
    progress_bar_with_success 0 0 10 10 40 = some (normalLine 0 0 10 10 40) ∧
    visibleColumns (normalLine 0 0 10 10 40) = 39 ∧ (39 : Nat) ≠ 40 := by decide

/-- C1 (amended: `total ≥ 1` and the no-overflow bound
`width * total < 2^16` added; the emitted line spans
`line_width - 3 + (number of decimal digits of total)` columns — equal to
`line_width` exactly when `total` has three digits): the five fill segments
(failed, success, pending, marker, empty) always sum to
`width = line_width - 20` exactly. -/
theorem C1_fill_sum_and_columns_amended (p f s t lw : Nat)
    (hsum : p + f + s ≤ t) (ht : 0 < t) (ht1000 : t < 1000)
    (hlw : MIN_LINE_WIDTH ≤ lw) (hlw16 : lw < 65536)
    (hov : barWidth lw * t < 65536) :
    progress_bar_with_success p f s t lw = some (normalLine p f s t lw) ∧
    visibleColumns (failedSeg f (bounds p f s t lw)) +
      visibleColumns (successSeg (bounds p f s t lw)) +
      visibleColumns (pendingSeg p (bounds p f s t lw)) +
      visibleColumns (markerSeg (barWidth lw) (bounds p f s t lw)) +
      visibleColumns (emptySeg (barWidth lw) (bounds p f s t lw)) = barWidth lw ∧
    visibleColumns (normalLine p f s t lw) = lw - 3 + (decDigits t).length :=
  ⟨progress_bar_normal ht hlw, fill_sum hsum ht ht1000 hlw hlw16 hov,
    cols_normalLine hsum ht ht1000 hlw hlw16 hov⟩

theorem C1_fill_sum_and_columns_amended_witness :
    progress_bar_with_success 2 1 3 100 30 = some (normalLine 2 1 3 100 30) ∧
    visibleColumns (failedSeg 1 (bounds 2 1 3 100 30)) +
      visibleColumns (successSeg (bounds 2 1 3 100 30)) +
      visibleColumns (pendingSeg 2 (bounds 2 1 3 100 30)) +
      visibleColumns (markerSeg (barWidth 30) (bounds 2 1 3 100 30)) +
      visibleColumns (emptySeg (barWidth 30) (bounds 2 1 3 100 30)) = barWidth 30 ∧
    visibleColumns (normalLine 2 1 3 100 30) = 30 - 3 + (decDigits 100).length :=
  C1_fill_sum_and_columns_amended 2 1 3 100 30 (by decide) (by decide)
    (by decide) (by decide) (by decide) (by decide)
